import Mathlib

/-!
Verification of the symbol-resolution and output-layout core of the mold ELF
linker (src/elf/passes.cc) against its natural-language specification.

The C++ passes are shallowly embedded as executable Lean definitions: the
per-symbol aggregation step of `scan_rels`, the synthetic-section list of
`create_synthetic_sections`, the priority sort of `sort_init_fini`, the
version-suffix handling of `parse_symbol_version`, the address/offset
assignment of `set_osec_offsets`, the parallel prefix scan of
`compute_section_sizes`, the `__rel_iplt_*` binding of
`fix_synthetic_symbols`, and `parse_defsym_addr`.  Machine integers are
modelled as `Nat` (with explicit bounds where C++ would throw), fallible
code returns `Option`/`Except`.
-/

namespace Mold

/-- Rounds `x` up to the next multiple of `a` (mold's `align_to`; alignments
are powers of two in practice, and `align_to (x, 0) = x`). -/
def alignTo (x a : Nat) : Nat := if a = 0 then x else (x + a - 1) / a * a

/-! ## fix_synthetic_symbols: the `__rel_iplt_start` / `__rel_iplt_end` binding -/

/-- ELF symbol type tag for an ifunc symbol. -/
def STT_GNU_IFUNC : Nat := 10

/-- A symbol registered in the GOT, as far as `get_num_irelative_relocs`
inspects it: its name and its `st_type`. -/
structure GotSym where
  name : String
  st_type : Nat
deriving DecidableEq

/-- From `get_num_irelative_relocs`: counts GOT symbols whose type is
`STT_GNU_IFUNC`. -/
def get_num_irelative_relocs (gotSyms : List GotSym) : Nat :=
  gotSyms.countP (fun s => s.st_type == STT_GNU_IFUNC)

/-- From `fix_synthetic_symbols`: `__rel_iplt_start` is bound to the start
address of `.rela.dyn`, and `__rel_iplt_end` to that address plus the number
of IRELATIVE relocations times `sizeof(ElfRel<E>)`.  Returns the pair
(value of `__rel_iplt_start`, value of `__rel_iplt_end`). -/
def fix_rel_iplt (reldynAddr : Nat) (gotSyms : List GotSym) (relSize : Nat) : Nat × Nat :=
  (reldynAddr, reldynAddr + get_num_irelative_relocs gotSyms * relSize)

/-! ## parse_defsym_addr -/

/-- Hexadecimal digit predicate, as accepted by `std::stoull` with base 16. -/
def isHexDigitCh (c : Char) : Bool :=
  c.isDigit || ('a' ≤ c && c ≤ 'f') || ('A' ≤ c && c ≤ 'F')

/-- Numeric value of a hexadecimal digit. -/
def hexDigitVal (c : Char) : Nat :=
  if c.isDigit then c.toNat - 48
  else if 'a' ≤ c && c ≤ 'f' then c.toNat - 87
  else c.toNat - 55

/-- Value of a digit string under a given base and digit valuation. -/
def digitsVal (base : Nat) (f : Char → Nat) (cs : List Char) : Nat :=
  cs.foldl (fun n c => n * base + f c) 0

/-- Model of `parse_defsym_addr`.  `.error ()` marks an uncaught C++ exception
thrown by `std::stoull` (`std::invalid_argument` when the subject sequence is
empty, `std::out_of_range` past `ULLONG_MAX`); `.ok none` is the function's
explicit empty-`optional` return.  In the hexadecimal branch `std::stoull`
consumes the `0x` prefix plus the following hex-digit run when that run is
non-empty, and just the leading `0` otherwise, which is what `nread`
reflects. -/
def parse_defsym_addr (s : String) : Except Unit (Option Nat) :=
  let cs := s.data
  if cs.take 2 = ['0', 'x'] ∨ cs.take 2 = ['0', 'X'] then
    let run := (cs.drop 2).takeWhile isHexDigitCh
    let v := digitsVal 16 hexDigitVal run
    if 2 ^ 64 ≤ v then .error ()
    else
      let nread := if run = [] then 1 else 2 + run.length
      if cs.length ≠ nread then .ok none else .ok (some v)
  else if cs.all Char.isDigit then
    if cs = [] then .error ()
    else
      let v := digitsVal 10 (fun c => c.toNat - 48) cs
      if 2 ^ 64 ≤ v then .error () else .ok (some v)
  else .ok none

/-! ## create_synthetic_sections -/

/-- The `--build-id` styles distinguished by the driver; the pass only asks
whether the kind is `NONE`. -/
inductive BuildIdKind
  | NONE
  | HEX
  | HASH
  | UUID
deriving DecidableEq

/-- The command-line state `create_synthetic_sections` consults. -/
structure LinkArgs where
  dynamic_linker : String
  build_id : BuildIdKind
  eh_frame_hdr : Bool
  hash_style_sysv : Bool
  hash_style_gnu : Bool
  version_definitions : List String
  repro : Bool

/-- The synthetic chunks that `create_synthetic_sections` can append. -/
inductive ChunkId
  | ehdr
  | phdr
  | shdr
  | got
  | gotplt
  | reldyn
  | relplt
  | strtab
  | shstrtab
  | plt
  | pltgot
  | symtab
  | dynsym
  | dynstr
  | eh_frame
  | dynbss
  | dynbss_relro
  | interp
  | buildid
  | eh_frame_hdr
  | hash
  | gnu_hash
  | verdef
  | dynamic
  | versym
  | verneed
  | note_property
  | repro
deriving DecidableEq

/-- Model of `create_synthetic_sections`: the chunk table it builds, in
append order.  The first seventeen chunks are unconditional; `.interp`,
`.note.gnu.build-id`, `.eh_frame_hdr`, `.hash`, `.gnu.hash` and
`.gnu.version_d` are guarded by options; then `.dynamic`, `.gnu.version`,
`.gnu.version_r` and `.note.gnu.property` are appended unconditionally, and
finally the repro section is guarded by `--repro`. -/
def create_synthetic_sections (arg : LinkArgs) : List ChunkId :=
  [.ehdr, .phdr, .shdr, .got, .gotplt, .reldyn, .relplt, .strtab, .shstrtab,
   .plt, .pltgot, .symtab, .dynsym, .dynstr, .eh_frame, .dynbss, .dynbss_relro]
  ++ (if arg.dynamic_linker ≠ "" then [.interp] else [])
  ++ (if arg.build_id ≠ .NONE then [.buildid] else [])
  ++ (if arg.eh_frame_hdr then [.eh_frame_hdr] else [])
  ++ (if arg.hash_style_sysv then [.hash] else [])
  ++ (if arg.hash_style_gnu then [.gnu_hash] else [])
  ++ (if arg.version_definitions ≠ [] then [.verdef] else [])
  ++ [.dynamic, .versym, .verneed, .note_property]
  ++ (if arg.repro then [.repro] else [])

/-! ## sort_init_fini -/

/-- Whether `suf` is a suffix of `l`. -/
def listEndsWith (l suf : List Char) : Bool :=
  decide (suf.length ≤ l.length) && l.drop (l.length - suf.length) == suf

/-- Model of the `get_priority` lambda in `sort_init_fini`: the regular
expression search for the anchored pattern of `_array.` followed by a digit
run at the end of the name succeeds exactly when the name ends with
`_array.` followed by a non-empty digit run, and the captured digits are
that trailing run; names without such a suffix get priority 65536. -/
def get_priority (name : String) : Nat :=
  let cs := name.data
  let ds := (cs.reverse.takeWhile Char.isDigit).reverse
  let pre := cs.take (cs.length - ds.length)
  if ds = [] then 65536
  else if listEndsWith pre "_array.".data then digitsVal 10 (fun c => c.toNat - 48) ds
  else 65536

/-- Model of `sort_init_fini` for one output section: members of
`.init_array` and `.fini_array` are stably sorted by ascending
`get_priority`; other output sections are untouched.  Members are
identified by their section names. -/
def sort_init_fini (osecName : String) (members : List String) : List String :=
  if osecName = ".init_array" ∨ osecName = ".fini_array" then
    members.insertionSort (fun a b => get_priority a ≤ get_priority b)
  else members

/-! ## parse_symbol_version -/

/-- Last reserved version index (`VER_NDX_GLOBAL`); definition `i` of the
`--version-script` gets dynamic version index `i + VER_NDX_LAST_RESERVED + 1`. -/
def VER_NDX_LAST_RESERVED : Nat := 1

/-- High bit of a 16-bit version index: the symbol is not the default
definition for its version. -/
def VERSYM_HIDDEN : Nat := 0x8000

/-- Lookup in the `verdefs` hash map built by `parse_symbol_version`:
index `i + n` for the last occurrence of `v` in the remaining definition
list (later insertions into the `std::unordered_map` overwrite earlier
ones). -/
def verdefLookup : List String → Nat → String → Option Nat
  | [], _, _ => none
  | d :: ds, n, v =>
    match verdefLookup ds (n + 1) v with
    | some i => some i
    | none => if d = v then some n else none

/-- Model of `parse_symbol_version` for one symbol: given whether the link
is `-shared`, the declared version-definition names, the symbol's recorded
version suffix (the part of the input name after the first `@`; a further
leading `@` means the `@@` default form) and its current `ver_idx`.
Returns the new `ver_idx` and whether an undefined-version error was
reported. -/
def parse_symbol_version (shared : Bool) (version_definitions : List String)
    (symver : Option String) (ver_idx : Nat) : Nat × Bool :=
  if !shared then (ver_idx, false)
  else
    match symver with
    | none => (ver_idx, false)
    | some ver0 =>
      let is_default := ver0.data.take 1 = ['@']
      let ver := if is_default then String.mk (ver0.data.drop 1) else ver0
      match verdefLookup version_definitions 0 ver with
      | none => (ver_idx, true)
      | some i =>
        let v := i + VER_NDX_LAST_RESERVED + 1
        (if is_default then v else v ||| VERSYM_HIDDEN, false)

/-! ## scan_rels: the per-symbol slot-allocation step -/

/-- Per-symbol requirement bit: a GOT slot is needed. -/
def NEEDS_GOT : Nat := 1
/-- Per-symbol requirement bit: a PLT slot is needed. -/
def NEEDS_PLT : Nat := 2
/-- Per-symbol requirement bit: a GOTTP slot is needed. -/
def NEEDS_GOTTP : Nat := 4
/-- Per-symbol requirement bit: a TLSGD slot is needed. -/
def NEEDS_TLSGD : Nat := 8
/-- Per-symbol requirement bit: a TLSDESC slot is needed. -/
def NEEDS_TLSDESC : Nat := 16
/-- Per-symbol requirement bit: the module-wide TLSLD slot is needed. -/
def NEEDS_TLSLD : Nat := 32
/-- Per-symbol requirement bit: a copy-relocation slot is needed. -/
def NEEDS_COPYREL : Nat := 64

/-- The fields of a `Symbol` record touched by the aggregation loop of
`scan_rels`.  `aux_idx` keeps the C++ `-1` sentinel. -/
structure Symbol where
  name : String
  flags : Nat
  is_imported : Bool
  is_exported : Bool
  has_copyrel : Bool
  copyrel_readonly : Bool
  value : Nat
  aux_idx : Int
deriving DecidableEq

/-- The context tables the aggregation loop of `scan_rels` appends to:
the size of `ctx.symbol_aux` and, for each section, the names added to it
in order (`tlsld` counts calls to `add_tlsld`). -/
structure ScanState where
  symbol_aux : Nat
  dynsym : List String
  got : List String
  gottp : List String
  tlsgd : List String
  tlsdesc : List String
  tlsld : Nat
  plt : List String
  pltgot : List String
  dynbss : List String
  dynbss_relro : List String
deriving DecidableEq

/-- The `add_aux` lambda of `scan_rels`: give the symbol a slot in
`ctx.symbol_aux` if it does not have one yet. -/
def add_aux (sym : Symbol) (st : ScanState) : Symbol × ScanState :=
  if sym.aux_idx = -1 then
    ({sym with aux_idx := Int.ofNat st.symbol_aux}, {st with symbol_aux := st.symbol_aux + 1})
  else (sym, st)

/-- The alias loop of the `NEEDS_COPYREL` branch of `scan_rels`: each DSO
alias of the copied symbol gets an aux slot, is marked imported, exported
and `has_copyrel`, inherits the symbol's `value` and `copyrel_readonly`,
and is added to `.dynsym`. -/
def copy_aliases (value : Nat) (ro : Bool) : List Symbol → ScanState → List Symbol × ScanState
  | [], st => ([], st)
  | a :: as_, st =>
    let p := add_aux a st
    let a1 := {p.1 with is_imported := true, is_exported := true, has_copyrel := true,
                        value := value, copyrel_readonly := ro}
    let st1 := {p.2 with dynsym := p.2.dynsym ++ [a1.name]}
    let q := copy_aliases value ro as_ st1
    (a1 :: q.1, q.2)

/-- One iteration of the slot-allocation loop of `scan_rels`, for one
aggregated symbol.  `pic` is `ctx.arg.pic`; `dso_readonly` stands for
`file->is_readonly(ctx, sym)` on the defining DSO and `aliases` for
`file->find_aliases(sym)` (both computed outside this translation unit).
Returns the updated symbol, the updated aliases and the updated tables. -/
def scan_rels_sym (pic : Bool) (dso_readonly : Bool) (aliases : List Symbol)
    (sym0 : Symbol) (st0 : ScanState) : Symbol × List Symbol × ScanState :=
  let p0 := add_aux sym0 st0
  let sym := p0.1
  let st1 := p0.2
  let st2 := if sym.is_imported || sym.is_exported
             then {st1 with dynsym := st1.dynsym ++ [sym.name]} else st1
  let st3 := if sym.flags &&& NEEDS_GOT ≠ 0
             then {st2 with got := st2.got ++ [sym.name]} else st2
  let p1 :=
    if sym.flags &&& NEEDS_PLT ≠ 0 then
      let is_canonical := !pic && sym.is_imported
      let sym1 := if is_canonical then {sym with is_exported := true} else sym
      if sym1.flags &&& NEEDS_GOT ≠ 0 ∧ is_canonical = false then
        (sym1, {st3 with pltgot := st3.pltgot ++ [sym1.name]})
      else
        (sym1, {st3 with plt := st3.plt ++ [sym1.name]})
    else (sym, st3)
  let sym2 := p1.1
  let st4 := p1.2
  let st5 := if sym2.flags &&& NEEDS_GOTTP ≠ 0
             then {st4 with gottp := st4.gottp ++ [sym2.name]} else st4
  let st6 := if sym2.flags &&& NEEDS_TLSGD ≠ 0
             then {st5 with tlsgd := st5.tlsgd ++ [sym2.name]} else st5
  let st7 := if sym2.flags &&& NEEDS_TLSDESC ≠ 0
             then {st6 with tlsdesc := st6.tlsdesc ++ [sym2.name]} else st6
  let st8 := if sym2.flags &&& NEEDS_TLSLD ≠ 0
             then {st7 with tlsld := st7.tlsld + 1} else st7
  let p2 :=
    if sym2.flags &&& NEEDS_COPYREL ≠ 0 then
      let sym3 := {sym2 with copyrel_readonly := dso_readonly}
      let st9 := if sym3.copyrel_readonly
                 then {st8 with dynbss_relro := st8.dynbss_relro ++ [sym3.name]}
                 else {st8 with dynbss := st8.dynbss ++ [sym3.name]}
      let sym4 := {sym3 with is_exported := true}
      let q := copy_aliases sym4.value sym4.copyrel_readonly aliases st9
      (sym4, q.1, q.2)
    else (sym2, aliases, st8)
  ({p2.1 with flags := 0}, p2.2.1, p2.2.2)

/-! ## set_osec_offsets -/

/-- The section-header fields of an output chunk that `set_osec_offsets`
reads and writes. -/
structure OChunk where
  shf_alloc : Bool
  shf_tls : Bool
  nobits : Bool
  sh_addralign : Nat
  sh_size : Nat
  sh_addr : Nat
  sh_offset : Nat
deriving DecidableEq

/-- From `is_tbss`: a chunk is thread-local BSS when it is `SHT_NOBITS` and
carries `SHF_TLS`. -/
def is_tbss (c : OChunk) : Bool := c.nobits && c.shf_tls

/-- From `align_with_skew`: the smallest `n` with `n ≥ val` and
`n % align = skew % align`. -/
def align_with_skew (val align skew : Nat) : Nat :=
  let s := skew % align
  alignTo (val + align - s) align - align + s

/-- The first loop of `set_osec_offsets`: assign virtual addresses.
Non-alloc chunks are skipped (but still become the predecessor used by
`separate_page`); a page boundary is inserted when `sep` demands one; TBSS
chunks receive the cursor as address without advancing it; other chunks are
aligned, placed, and advance the cursor.  `sep` stands for `separate_page`,
which lives outside this translation unit. -/
def assignVaddrs (sep : OChunk → OChunk → Bool) (page : Nat) :
    Option OChunk → Nat → List OChunk → List OChunk
  | _, _, [] => []
  | prev, addr, c :: cs =>
    if c.shf_alloc = false then c :: assignVaddrs sep page (some c) addr cs
    else
      let addr := match prev with
        | some p => if sep p c then alignTo addr page else addr
        | none => addr
      if is_tbss c then
        let c1 := {c with sh_addr := addr}
        c1 :: assignVaddrs sep page (some c1) addr cs
      else
        let a := alignTo addr c.sh_addralign
        let c1 := {c with sh_addr := a}
        c1 :: assignVaddrs sep page (some c1) (a + c.sh_size) cs

/-- The second loop of `set_osec_offsets`: re-lay each run of TBSS chunks
consecutively (aligned) starting from the run's first pass-one address.
The `Option Nat` state is the in-run address cursor (`none` outside a
run). -/
def fixTbssAddrs : Option Nat → List OChunk → List OChunk
  | _, [] => []
  | state, c :: cs =>
    if is_tbss c then
      let base := match state with
        | some a => a
        | none => c.sh_addr
      let a := alignTo base c.sh_addralign
      {c with sh_addr := a} :: fixTbssAddrs (some (a + c.sh_size)) cs
    else c :: fixTbssAddrs none cs

/-- The third loop of `set_osec_offsets`: assign file offsets.  A
`SHT_NOBITS` chunk takes the cursor without advancing it; any other chunk
takes `align_with_skew` of the cursor and advances it past its size.
Returns the chunks and the final file size. -/
def assignFileOffsets (page : Nat) : Nat → List OChunk → List OChunk × Nat
  | fileoff, [] => ([], fileoff)
  | fileoff, c :: cs =>
    if c.nobits then
      let q := assignFileOffsets page fileoff cs
      ({c with sh_offset := fileoff} :: q.1, q.2)
    else
      let off := align_with_skew fileoff page c.sh_addr
      let q := assignFileOffsets page (off + c.sh_size) cs
      ({c with sh_offset := off} :: q.1, q.2)

/-- Model of `set_osec_offsets`: virtual-address assignment, TBSS fix-up,
then file-offset assignment.  Returns the laid-out chunks and the file
size. -/
def set_osec_offsets (sep : OChunk → OChunk → Bool) (page image_base : Nat)
    (chunks : List OChunk) : List OChunk × Nat :=
  assignFileOffsets page 0 (fixTbssAddrs none (assignVaddrs sep page none image_base chunks))

/-! ## compute_section_sizes -/

/-- The input-section fields read by `compute_section_sizes`. -/
structure ISec where
  sh_addralign : Nat
  sh_size : Nat
deriving DecidableEq

/-- The final pass of the scan body over one range: the offsets written to
the members, starting from a given cursor (each member's offset is the
cursor aligned to the member's alignment). -/
def scanOffsets : Nat → List ISec → List Nat
  | _, [] => []
  | off, m :: ms =>
    let o := alignTo off m.sh_addralign
    o :: scanOffsets (o + m.sh_size) ms

/-- The scan body over one range: the running `(offset, align)` pair. -/
def scanSum : Nat × Nat → List ISec → Nat × Nat
  | s, [] => s
  | s, m :: ms =>
    scanSum (alignTo s.1 m.sh_addralign + m.sh_size, max s.2 m.sh_addralign) ms

/-- The combine of the parallel scan: `(l.offset aligned to r.align) +
r.offset` and the max of the alignments. -/
def combine (l r : Nat × Nat) : Nat × Nat :=
  (alignTo l.1 r.2 + r.1, max l.2 r.2)

/-- The offsets computed by the two-phase parallel scan for a given
deterministic splitting of the member list into ranges: each range's final
pass starts from the prefix obtained by combining the pre-scan summaries of
the preceding ranges into the identity `(0, 1)`. -/
def parOffsets : Nat × Nat → List (List ISec) → List Nat
  | _, [] => []
  | s, r :: rs => scanOffsets s.1 r ++ parOffsets (combine s (scanSum (0, 1) r)) rs

/-- The total returned by the parallel scan: the combine-fold of all range
summaries. -/
def parSum (s : Nat × Nat) (split : List (List ISec)) : Nat × Nat :=
  split.foldl (fun acc r => combine acc (scanSum (0, 1) r)) s

/-- Model of `compute_section_sizes` for one output section whose member
list has been split into ranges: the member offsets, the section's
`sh_size` and its `sh_addralign`. -/
def compute_section_sizes (split : List (List ISec)) : List Nat × Nat × Nat :=
  (parOffsets (0, 1) split, (parSum (0, 1) split).1, (parSum (0, 1) split).2)

/-- Maximum member alignment of a range, starting from the identity
alignment 1 (spec-side definition, used to characterise the combine). -/
def maxAlignOf (ms : List ISec) : Nat :=
  ms.foldl (fun a m => max a m.sh_addralign) 1

/-- Spec-side reference computation for the parallel scan: each range's
members are laid out from the current cursor exactly as in the sequential
computation, but the cursor passed to the next range is the end of the
range as if it had been laid out starting from the cursor aligned up to
the range's maximum member alignment.  Returns the member offsets and the
final cursor. -/
def rangedScan : Nat → List (List ISec) → List Nat × Nat
  | o, [] => ([], o)
  | o, r :: rs =>
    let t := rangedScan (scanSum (alignTo o (maxAlignOf r), 1) r).1 rs
    (scanOffsets o r ++ t.1, t.2)

/-- An alignment value is a power of two (every `sh_addralign` handled by
mold is). -/
def Pow2 (n : Nat) : Prop := ∃ k, n = 2 ^ k

/-- Spec-side file-offset contract, following the claim: with cursor `cur`,
a `SHT_NOBITS` chunk takes the cursor as offset and leaves the cursor in
place, while any other chunk takes the least offset that is at least the
cursor and congruent to its `sh_addr` modulo the page size, and the cursor
moves past its size. -/
def OffSpec (page : Nat) : Nat → List OChunk → List OChunk → Prop
  | _, [], out => out = []
  | cur, c :: cs, out =>
    if c.nobits then
      ∃ out1, out = {c with sh_offset := cur} :: out1 ∧ OffSpec page cur cs out1
    else
      ∃ off out1, out = {c with sh_offset := off} :: out1 ∧
        IsLeast {n | cur ≤ n ∧ n % page = c.sh_addr % page} off ∧
        OffSpec page (off + c.sh_size) cs out1

/-- Spec-side layout contract for a TBSS run: starting from address `a`,
each chunk is placed at `a` aligned to its own alignment and the next chunk
follows its end. -/
def RunLayout : Nat → List OChunk → List OChunk → Prop
  | _, [], out => out = []
  | a, t :: ts, out =>
    ∃ out1, out = {t with sh_addr := alignTo a t.sh_addralign} :: out1 ∧
      RunLayout (alignTo a t.sh_addralign + t.sh_size) ts out1

/-! ## Helper lemmas about alignment -/

theorem le_alignTo (x : Nat) {a : Nat} (ha : 0 < a) : x ≤ alignTo x a := by
  unfold alignTo
  rw [if_neg (Nat.pos_iff_ne_zero.mp ha)]
  have h1 : a * ((x + a - 1) / a) + (x + a - 1) % a = x + a - 1 := Nat.div_add_mod _ _
  have h2 : (x + a - 1) % a < a := Nat.mod_lt _ ha
  rw [Nat.mul_comm] at h1
  generalize (x + a - 1) / a * a = t at h1 ⊢
  omega

theorem alignTo_dvd (x : Nat) {a : Nat} (ha : 0 < a) : a ∣ alignTo x a := by
  unfold alignTo
  rw [if_neg (Nat.pos_iff_ne_zero.mp ha)]
  exact ⟨(x + a - 1) / a, (Nat.mul_comm _ _)⟩

theorem alignTo_le {x m a : Nat} (ha : 0 < a) (hxm : x ≤ m) (hdvd : a ∣ m) :
    alignTo x a ≤ m := by
  obtain ⟨k, rfl⟩ := hdvd
  unfold alignTo
  rw [if_neg (Nat.pos_iff_ne_zero.mp ha)]
  have hdle : (x + a - 1) / a ≤ k := by
    have h1 : x + a - 1 ≤ (a - 1) + k * a := by
      have := Nat.mul_comm a k
      omega
    have h2 : (x + a - 1) / a ≤ ((a - 1) + k * a) / a := Nat.div_le_div_right h1
    rwa [Nat.add_mul_div_right _ _ ha, Nat.div_eq_of_lt (show a - 1 < a by omega),
      Nat.zero_add] at h2
  calc (x + a - 1) / a * a ≤ k * a := Nat.mul_le_mul_right a hdle
  _ = a * k := Nat.mul_comm _ _

theorem alignTo_zero_left {a : Nat} : alignTo 0 a = 0 := by
  unfold alignTo
  rcases Nat.eq_zero_or_pos a with h | h
  · simp [h]
  · rw [if_neg (Nat.pos_iff_ne_zero.mp h), Nat.zero_add, Nat.div_eq_of_lt (by omega),
      Nat.zero_mul]

theorem alignTo_add_of_dvd (o b : Nat) {a : Nat} (hab : a ∣ b) :
    alignTo (o + b) a = alignTo o a + b := by
  rcases Nat.eq_zero_or_pos a with h0 | ha
  · subst h0
    obtain ⟨k, hk⟩ := hab
    simp [alignTo] at hk ⊢
  · obtain ⟨k, rfl⟩ := hab
    unfold alignTo
    rw [if_neg (Nat.pos_iff_ne_zero.mp ha), if_neg (Nat.pos_iff_ne_zero.mp ha)]
    have h1 : o + a * k + a - 1 = (o + a - 1) + k * a := by
      have := Nat.mul_comm a k
      omega
    rw [h1, Nat.add_mul_div_right _ _ ha, Nat.add_mul, Nat.mul_comm a k]

/-! ## Claim theorems: C9, C10 -/

/-- Claim C9: after `fix_synthetic_symbols`, the value of `__rel_iplt_end`
minus the value of `__rel_iplt_start` equals `n` times the size of one
relocation record, where `n` is the number of GOT symbols of type
`STT_GNU_IFUNC`, and `__rel_iplt_start` is bound to the start address of
`.rela.dyn`. -/
theorem rel_iplt_range (reldynAddr relSize : Nat) (gotSyms : List GotSym) :
    (fix_rel_iplt reldynAddr gotSyms relSize).2 - (fix_rel_iplt reldynAddr gotSyms relSize).1
      = gotSyms.countP (fun s => s.st_type == STT_GNU_IFUNC) * relSize ∧
    (fix_rel_iplt reldynAddr gotSyms relSize).1 = reldynAddr := by
  refine ⟨?_, rfl⟩
  simp [fix_rel_iplt, get_num_irelative_relocs, Nat.add_sub_cancel_left]

/-- Claim C10: `parse_defsym_addr` is claimed to be total and to return
`none` on the empty string, but on the empty string the code reaches
`std::stoull` with an empty subject sequence (the digits-only guard is
vacuously true), which throws `std::invalid_argument`, modelled as
`.error ()`. -/
theorem parse_defsym_addr_empty_crash : parse_defsym_addr "" = .error () := rfl

/-! ## Claim theorems: C6 -/

theorem mem_ite_singleton {p : Prop} [Decidable p] (a b : ChunkId) :
    (a ∈ if p then [b] else ([] : List ChunkId)) ↔ p ∧ a = b := by
  split_ifs with h <;> simp [h]

/-- Counterexample to claim C6: with every option disabled, `.gnu.version`
(`versym`), `.gnu.version_r` (`verneed`) and `.note.gnu.property` are still
appended, so they are not conditional on any option. -/
theorem create_synthetic_sections_cex :
    ChunkId.versym ∈ create_synthetic_sections ⟨"", .NONE, false, false, false, [], false⟩ ∧
    ChunkId.verneed ∈ create_synthetic_sections ⟨"", .NONE, false, false, false, [], false⟩ ∧
    ChunkId.note_property ∈ create_synthetic_sections ⟨"", .NONE, false, false, false, [], false⟩ ∧
    ChunkId.interp ∉ create_synthetic_sections ⟨"", .NONE, false, false, false, [], false⟩ := by
  decide

/-- Claim C6 (amended): the seventeen fixed chunks and additionally
`.dynamic`, `.gnu.version`, `.gnu.version_r` and `.note.gnu.property` are
appended for every input, while `.interp`, `.note.gnu.build-id`,
`.eh_frame_hdr`, `.hash`, `.gnu.hash`, `.gnu.version_d` and the repro
section are appended exactly when their respective options are enabled. -/
theorem create_synthetic_sections_membership (arg : LinkArgs) :
    (∀ c : ChunkId,
      c ∈ ([.ehdr, .phdr, .shdr, .got, .gotplt, .reldyn, .relplt, .strtab,
            .shstrtab, .plt, .pltgot, .symtab, .dynsym, .dynstr, .eh_frame, .dynbss,
            .dynbss_relro, .dynamic, .versym, .verneed, .note_property] : List ChunkId) →
      c ∈ create_synthetic_sections arg) ∧
    (ChunkId.interp ∈ create_synthetic_sections arg ↔ arg.dynamic_linker ≠ "") ∧
    (ChunkId.buildid ∈ create_synthetic_sections arg ↔ arg.build_id ≠ .NONE) ∧
    (ChunkId.eh_frame_hdr ∈ create_synthetic_sections arg ↔ arg.eh_frame_hdr = true) ∧
    (ChunkId.hash ∈ create_synthetic_sections arg ↔ arg.hash_style_sysv = true) ∧
    (ChunkId.gnu_hash ∈ create_synthetic_sections arg ↔ arg.hash_style_gnu = true) ∧
    (ChunkId.verdef ∈ create_synthetic_sections arg ↔ arg.version_definitions ≠ []) ∧
    (ChunkId.repro ∈ create_synthetic_sections arg ↔ arg.repro = true) := by
  refine ⟨?_, ?_, ?_, ?_, ?_, ?_, ?_, ?_⟩ <;>
    simp [create_synthetic_sections, mem_ite_singleton]

/-! ## Claim theorems: C7 -/

instance : DecidableRel (fun a b : String => get_priority a ≤ get_priority b) :=
  fun x y => Nat.decLe (get_priority x) (get_priority y)

instance : IsTotal String (fun a b => get_priority a ≤ get_priority b) :=
  ⟨fun x y => Nat.le_total (get_priority x) (get_priority y)⟩

instance : IsTrans String (fun a b => get_priority a ≤ get_priority b) :=
  ⟨fun _ _ _ hxy hyz => Nat.le_trans hxy hyz⟩

/-- Counterexample to claim C7: a member whose parsed priority exceeds
65536 is placed after a member with no numeric suffix, so suffix-less
members do not come after all numbered members. -/
theorem sort_init_fini_cex :
    sort_init_fini ".init_array" [".init_array.70000", ".init_array"]
      = [".init_array", ".init_array.70000"] ∧
    get_priority ".init_array" = 65536 ∧
    get_priority ".init_array.70000" = 70000 := by
  decide

/-- Claim C7 (amended): after `sort_init_fini`, the members of
`.init_array` and `.fini_array` are a permutation of the input ordered by
ascending parsed priority, with members lacking a numeric suffix assigned
priority 65536 — hence placed after all members with priority below 65536
(such as `.init_array.100` and `.init_array.300`), though not after
members whose parsed priority exceeds 65536. -/
theorem sort_init_fini_sorted (osecName : String) (members : List String)
    (h : osecName = ".init_array" ∨ osecName = ".fini_array") :
    List.Sorted (fun a b => get_priority a ≤ get_priority b)
      (sort_init_fini osecName members) ∧
    (sort_init_fini osecName members).Perm members ∧
    sort_init_fini ".init_array" [".init_array.300", ".init_array.100", ".init_array"]
      = [".init_array.100", ".init_array.300", ".init_array"] := by
  have e : sort_init_fini osecName members
      = members.insertionSort (fun a b => get_priority a ≤ get_priority b) := by
    unfold sort_init_fini
    rw [if_pos h]
  refine ⟨?_, ?_, by decide⟩
  · rw [e]
    exact List.sorted_insertionSort _ _
  · rw [e]
    exact List.perm_insertionSort _ _

/-! ## Claim theorems: C1 and C2 -/

theorem prodFst_ite {α β : Type} {c : Prop} [Decidable c] (x y : α × β) :
    (if c then x else y).1 = if c then x.1 else y.1 := by
  split_ifs <;> rfl

theorem prodSnd_ite {α β : Type} {c : Prop} [Decidable c] (x y : α × β) :
    (if c then x else y).2 = if c then x.2 else y.2 := by
  split_ifs <;> rfl

theorem symImported_ite {c : Prop} [Decidable c] (x y : Symbol) :
    (if c then x else y).is_imported = if c then x.is_imported else y.is_imported := by
  split_ifs <;> rfl

theorem symExported_ite {c : Prop} [Decidable c] (x y : Symbol) :
    (if c then x else y).is_exported = if c then x.is_exported else y.is_exported := by
  split_ifs <;> rfl

theorem symFlags_ite {c : Prop} [Decidable c] (x y : Symbol) :
    (if c then x else y).flags = if c then x.flags else y.flags := by
  split_ifs <;> rfl

theorem symName_ite {c : Prop} [Decidable c] (x y : Symbol) :
    (if c then x else y).name = if c then x.name else y.name := by
  split_ifs <;> rfl

theorem symValue_ite {c : Prop} [Decidable c] (x y : Symbol) :
    (if c then x else y).value = if c then x.value else y.value := by
  split_ifs <;> rfl

theorem symCopyrelRo_ite {c : Prop} [Decidable c] (x y : Symbol) :
    (if c then x else y).copyrel_readonly
      = if c then x.copyrel_readonly else y.copyrel_readonly := by
  split_ifs <;> rfl

theorem symHasCopyrel_ite {c : Prop} [Decidable c] (x y : Symbol) :
    (if c then x else y).has_copyrel = if c then x.has_copyrel else y.has_copyrel := by
  split_ifs <;> rfl

theorem statePlt_ite {c : Prop} [Decidable c] (x y : ScanState) :
    (if c then x else y).plt = if c then x.plt else y.plt := by
  split_ifs <;> rfl

theorem statePltgot_ite {c : Prop} [Decidable c] (x y : ScanState) :
    (if c then x else y).pltgot = if c then x.pltgot else y.pltgot := by
  split_ifs <;> rfl

theorem stateDynbss_ite {c : Prop} [Decidable c] (x y : ScanState) :
    (if c then x else y).dynbss = if c then x.dynbss else y.dynbss := by
  split_ifs <;> rfl

theorem stateDynbssRelro_ite {c : Prop} [Decidable c] (x y : ScanState) :
    (if c then x else y).dynbss_relro = if c then x.dynbss_relro else y.dynbss_relro := by
  split_ifs <;> rfl

theorem stateDynsym_ite {c : Prop} [Decidable c] (x y : ScanState) :
    (if c then x else y).dynsym = if c then x.dynsym else y.dynsym := by
  split_ifs <;> rfl

theorem add_aux_fst_name (a : Symbol) (st : ScanState) : (add_aux a st).1.name = a.name := by
  unfold add_aux
  split_ifs <;> rfl

theorem add_aux_fst_flags (a : Symbol) (st : ScanState) : (add_aux a st).1.flags = a.flags := by
  unfold add_aux
  split_ifs <;> rfl

theorem add_aux_fst_is_imported (a : Symbol) (st : ScanState) :
    (add_aux a st).1.is_imported = a.is_imported := by
  unfold add_aux
  split_ifs <;> rfl

theorem add_aux_fst_is_exported (a : Symbol) (st : ScanState) :
    (add_aux a st).1.is_exported = a.is_exported := by
  unfold add_aux
  split_ifs <;> rfl

theorem add_aux_fst_has_copyrel (a : Symbol) (st : ScanState) :
    (add_aux a st).1.has_copyrel = a.has_copyrel := by
  unfold add_aux
  split_ifs <;> rfl

theorem add_aux_fst_copyrel_readonly (a : Symbol) (st : ScanState) :
    (add_aux a st).1.copyrel_readonly = a.copyrel_readonly := by
  unfold add_aux
  split_ifs <;> rfl

theorem add_aux_fst_value (a : Symbol) (st : ScanState) : (add_aux a st).1.value = a.value := by
  unfold add_aux
  split_ifs <;> rfl

theorem add_aux_snd_dynsym (a : Symbol) (st : ScanState) :
    (add_aux a st).2.dynsym = st.dynsym := by
  unfold add_aux
  split_ifs <;> rfl

theorem add_aux_snd_plt (a : Symbol) (st : ScanState) : (add_aux a st).2.plt = st.plt := by
  unfold add_aux
  split_ifs <;> rfl

theorem add_aux_snd_pltgot (a : Symbol) (st : ScanState) :
    (add_aux a st).2.pltgot = st.pltgot := by
  unfold add_aux
  split_ifs <;> rfl

theorem add_aux_snd_dynbss (a : Symbol) (st : ScanState) :
    (add_aux a st).2.dynbss = st.dynbss := by
  unfold add_aux
  split_ifs <;> rfl

theorem add_aux_snd_dynbss_relro (a : Symbol) (st : ScanState) :
    (add_aux a st).2.dynbss_relro = st.dynbss_relro := by
  unfold add_aux
  split_ifs <;> rfl

theorem copy_aliases_plt (value : Nat) (ro : Bool) (as_ : List Symbol) :
    ∀ st : ScanState, (copy_aliases value ro as_ st).2.plt = st.plt := by
  induction as_ with
  | nil => intro st; rfl
  | cons a as ih =>
    intro st
    simp only [copy_aliases]
    rw [ih]
    simp [add_aux_snd_plt]

theorem copy_aliases_pltgot (value : Nat) (ro : Bool) (as_ : List Symbol) :
    ∀ st : ScanState, (copy_aliases value ro as_ st).2.pltgot = st.pltgot := by
  induction as_ with
  | nil => intro st; rfl
  | cons a as ih =>
    intro st
    simp only [copy_aliases]
    rw [ih]
    simp [add_aux_snd_pltgot]

theorem copy_aliases_dynbss (value : Nat) (ro : Bool) (as_ : List Symbol) :
    ∀ st : ScanState, (copy_aliases value ro as_ st).2.dynbss = st.dynbss := by
  induction as_ with
  | nil => intro st; rfl
  | cons a as ih =>
    intro st
    simp only [copy_aliases]
    rw [ih]
    simp [add_aux_snd_dynbss]

theorem copy_aliases_dynbss_relro (value : Nat) (ro : Bool) (as_ : List Symbol) :
    ∀ st : ScanState, (copy_aliases value ro as_ st).2.dynbss_relro = st.dynbss_relro := by
  induction as_ with
  | nil => intro st; rfl
  | cons a as ih =>
    intro st
    simp only [copy_aliases]
    rw [ih]
    simp [add_aux_snd_dynbss_relro]

theorem copy_aliases_dynsym (value : Nat) (ro : Bool) (as_ : List Symbol) :
    ∀ st : ScanState, (copy_aliases value ro as_ st).2.dynsym
      = st.dynsym ++ (copy_aliases value ro as_ st).1.map (fun x => x.name) := by
  induction as_ with
  | nil => intro st; simp [copy_aliases]
  | cons a as ih =>
    intro st
    simp only [copy_aliases]
    rw [ih]
    simp [add_aux_snd_dynsym, add_aux_fst_name]

theorem copy_aliases_mem (value : Nat) (ro : Bool) (as_ : List Symbol) :
    ∀ (st : ScanState) (a : Symbol), a ∈ (copy_aliases value ro as_ st).1 →
      a.is_imported = true ∧ a.is_exported = true ∧ a.has_copyrel = true ∧
      a.value = value ∧ a.copyrel_readonly = ro ∧
      a.name ∈ (copy_aliases value ro as_ st).2.dynsym := by
  induction as_ with
  | nil =>
    intro st a ha
    simp [copy_aliases] at ha
  | cons b as ih =>
    intro st a ha
    simp only [copy_aliases, List.mem_cons] at ha
    rcases ha with ha | ha
    · subst ha
      refine ⟨rfl, rfl, rfl, rfl, rfl, ?_⟩
      simp only [copy_aliases]
      rw [copy_aliases_dynsym]
      simp [add_aux_fst_name]
    · obtain ⟨h1, h2, h3, h4, h5, h6⟩ := ih _ a ha
      refine ⟨h1, h2, h3, h4, h5, ?_⟩
      simp only [copy_aliases]
      exact h6

/-- Claim C1: in the slot-allocation loop of `scan_rels`, a symbol that
needs a PLT gets a canonical PLT when the output is non-PIC and the symbol
is imported: it is additionally marked exported and its PLT entry goes to
`.plt`, never to `.plt.got`; otherwise the entry goes to `.plt.got` when
the symbol also needs a GOT slot, and to `.plt` when it does not. -/
theorem scan_rels_plt_routing (pic dso_readonly : Bool) (aliases : List Symbol)
    (sym0 : Symbol) (st0 : ScanState) (hplt : sym0.flags &&& NEEDS_PLT ≠ 0) :
    (pic = false ∧ sym0.is_imported = true →
      (scan_rels_sym pic dso_readonly aliases sym0 st0).1.is_exported = true ∧
      (scan_rels_sym pic dso_readonly aliases sym0 st0).2.2.plt = st0.plt ++ [sym0.name] ∧
      (scan_rels_sym pic dso_readonly aliases sym0 st0).2.2.pltgot = st0.pltgot) ∧
    (pic = true ∨ sym0.is_imported = false →
      (sym0.flags &&& NEEDS_GOT ≠ 0 →
        (scan_rels_sym pic dso_readonly aliases sym0 st0).2.2.pltgot
          = st0.pltgot ++ [sym0.name] ∧
        (scan_rels_sym pic dso_readonly aliases sym0 st0).2.2.plt = st0.plt) ∧
      (sym0.flags &&& NEEDS_GOT = 0 →
        (scan_rels_sym pic dso_readonly aliases sym0 st0).2.2.plt = st0.plt ++ [sym0.name] ∧
        (scan_rels_sym pic dso_readonly aliases sym0 st0).2.2.pltgot = st0.pltgot)) := by
  constructor
  · rintro ⟨hpic, him⟩
    subst hpic
    simp [scan_rels_sym, prodFst_ite, prodSnd_ite, symImported_ite, symExported_ite,
      symFlags_ite, symName_ite, symValue_ite, symCopyrelRo_ite, symHasCopyrel_ite,
      statePlt_ite, statePltgot_ite, stateDynbss_ite, stateDynbssRelro_ite,
      stateDynsym_ite, add_aux_fst_name, add_aux_fst_flags, add_aux_fst_is_imported,
      add_aux_fst_is_exported, add_aux_fst_value, add_aux_fst_has_copyrel,
      add_aux_fst_copyrel_readonly, add_aux_snd_plt, add_aux_snd_pltgot,
      add_aux_snd_dynbss, add_aux_snd_dynbss_relro, add_aux_snd_dynsym,
      copy_aliases_plt, copy_aliases_pltgot, copy_aliases_dynbss,
      copy_aliases_dynbss_relro, hplt, him]
  · intro hnc
    have hcanon : (!pic && sym0.is_imported) = false := by
      rcases hnc with h | h <;> simp [h]
    constructor <;> intro hgot <;>
      simp [scan_rels_sym, prodFst_ite, prodSnd_ite, symImported_ite, symExported_ite,
        symFlags_ite, symName_ite, symValue_ite, symCopyrelRo_ite, symHasCopyrel_ite,
        statePlt_ite, statePltgot_ite, stateDynbss_ite, stateDynbssRelro_ite,
        stateDynsym_ite, add_aux_fst_name, add_aux_fst_flags, add_aux_fst_is_imported,
        add_aux_fst_is_exported, add_aux_fst_value, add_aux_fst_has_copyrel,
        add_aux_fst_copyrel_readonly, add_aux_snd_plt, add_aux_snd_pltgot,
        add_aux_snd_dynbss, add_aux_snd_dynbss_relro, add_aux_snd_dynsym,
        copy_aliases_plt, copy_aliases_pltgot, copy_aliases_dynbss,
        copy_aliases_dynbss_relro, hplt, hgot, hcanon]

/-- Witness for C1: a canonical-PLT symbol in a non-PIC link. -/
theorem scan_rels_plt_routing_witness :
    ((⟨"hello", 2, true, false, false, false, 0, -1⟩ : Symbol).flags &&& NEEDS_PLT ≠ 0) ∧
    ((false = false ∧ (⟨"hello", 2, true, false, false, false, 0, -1⟩ : Symbol).is_imported = true →
      (scan_rels_sym false false [] ⟨"hello", 2, true, false, false, false, 0, -1⟩
        ⟨0, [], [], [], [], [], 0, [], [], [], []⟩).1.is_exported = true ∧
      (scan_rels_sym false false [] ⟨"hello", 2, true, false, false, false, 0, -1⟩
        ⟨0, [], [], [], [], [], 0, [], [], [], []⟩).2.2.plt
          = (⟨0, [], [], [], [], [], 0, [], [], [], []⟩ : ScanState).plt
            ++ [(⟨"hello", 2, true, false, false, false, 0, -1⟩ : Symbol).name] ∧
      (scan_rels_sym false false [] ⟨"hello", 2, true, false, false, false, 0, -1⟩
        ⟨0, [], [], [], [], [], 0, [], [], [], []⟩).2.2.pltgot
          = (⟨0, [], [], [], [], [], 0, [], [], [], []⟩ : ScanState).pltgot) ∧
    (false = true ∨ (⟨"hello", 2, true, false, false, false, 0, -1⟩ : Symbol).is_imported = false →
      ((⟨"hello", 2, true, false, false, false, 0, -1⟩ : Symbol).flags &&& NEEDS_GOT ≠ 0 →
        (scan_rels_sym false false [] ⟨"hello", 2, true, false, false, false, 0, -1⟩
          ⟨0, [], [], [], [], [], 0, [], [], [], []⟩).2.2.pltgot
            = (⟨0, [], [], [], [], [], 0, [], [], [], []⟩ : ScanState).pltgot
              ++ [(⟨"hello", 2, true, false, false, false, 0, -1⟩ : Symbol).name] ∧
        (scan_rels_sym false false [] ⟨"hello", 2, true, false, false, false, 0, -1⟩
          ⟨0, [], [], [], [], [], 0, [], [], [], []⟩).2.2.plt
            = (⟨0, [], [], [], [], [], 0, [], [], [], []⟩ : ScanState).plt) ∧
      ((⟨"hello", 2, true, false, false, false, 0, -1⟩ : Symbol).flags &&& NEEDS_GOT = 0 →
        (scan_rels_sym false false [] ⟨"hello", 2, true, false, false, false, 0, -1⟩
          ⟨0, [], [], [], [], [], 0, [], [], [], []⟩).2.2.plt
            = (⟨0, [], [], [], [], [], 0, [], [], [], []⟩ : ScanState).plt
              ++ [(⟨"hello", 2, true, false, false, false, 0, -1⟩ : Symbol).name] ∧
        (scan_rels_sym false false [] ⟨"hello", 2, true, false, false, false, 0, -1⟩
          ⟨0, [], [], [], [], [], 0, [], [], [], []⟩).2.2.pltgot
            = (⟨0, [], [], [], [], [], 0, [], [], [], []⟩ : ScanState).pltgot))) :=
  ⟨by decide,
   scan_rels_plt_routing false false [] ⟨"hello", 2, true, false, false, false, 0, -1⟩
     ⟨0, [], [], [], [], [], 0, [], [], [], []⟩ (by decide)⟩

/-- Claim C2: in the slot-allocation loop of `scan_rels`, a symbol that
needs a copy relocation (such a symbol is imported, since it is defined by
a DSO and referenced directly) gets its slot in `.dynbss.relro` when the
defining DSO holds it in a read-only segment and in `.dynbss` otherwise,
ends up both imported and exported, and every DSO alias is marked
imported, exported and `has_copyrel`, inherits the symbol's `value` and
`copyrel_readonly`, and is added to `.dynsym`. -/
theorem scan_rels_copyrel (pic dso_readonly : Bool) (aliases : List Symbol)
    (sym0 : Symbol) (st0 : ScanState) (hcr : sym0.flags &&& NEEDS_COPYREL ≠ 0)
    (him : sym0.is_imported = true) :
    (scan_rels_sym pic dso_readonly aliases sym0 st0).1.is_imported = true ∧
    (scan_rels_sym pic dso_readonly aliases sym0 st0).1.is_exported = true ∧
    (scan_rels_sym pic dso_readonly aliases sym0 st0).1.copyrel_readonly = dso_readonly ∧
    (dso_readonly = true →
      (scan_rels_sym pic dso_readonly aliases sym0 st0).2.2.dynbss_relro
        = st0.dynbss_relro ++ [sym0.name] ∧
      (scan_rels_sym pic dso_readonly aliases sym0 st0).2.2.dynbss = st0.dynbss) ∧
    (dso_readonly = false →
      (scan_rels_sym pic dso_readonly aliases sym0 st0).2.2.dynbss
        = st0.dynbss ++ [sym0.name] ∧
      (scan_rels_sym pic dso_readonly aliases sym0 st0).2.2.dynbss_relro
        = st0.dynbss_relro) ∧
    (∀ a ∈ (scan_rels_sym pic dso_readonly aliases sym0 st0).2.1,
      a.is_imported = true ∧ a.is_exported = true ∧ a.has_copyrel = true ∧
      a.value = sym0.value ∧ a.copyrel_readonly = dso_readonly ∧
      a.name ∈ (scan_rels_sym pic dso_readonly aliases sym0 st0).2.2.dynsym) := by
  refine ⟨?_, ?_, ?_, ?_, ?_, ?_⟩
  · simp [scan_rels_sym, prodFst_ite, prodSnd_ite, symImported_ite, symExported_ite,
      symFlags_ite, symName_ite, symValue_ite, symCopyrelRo_ite, symHasCopyrel_ite,
      add_aux_fst_flags, add_aux_fst_is_imported, hcr, him]
  · simp [scan_rels_sym, prodFst_ite, prodSnd_ite, symImported_ite, symExported_ite,
      symFlags_ite, symName_ite, symValue_ite, symCopyrelRo_ite, symHasCopyrel_ite,
      add_aux_fst_flags, add_aux_fst_is_exported, hcr]
  · simp [scan_rels_sym, prodFst_ite, prodSnd_ite, symImported_ite, symExported_ite,
      symFlags_ite, symName_ite, symValue_ite, symCopyrelRo_ite, symHasCopyrel_ite,
      add_aux_fst_flags, add_aux_fst_copyrel_readonly, hcr]
  · intro hro
    simp [scan_rels_sym, prodFst_ite, prodSnd_ite, symImported_ite, symExported_ite,
      symFlags_ite, symName_ite, symValue_ite, symCopyrelRo_ite, symHasCopyrel_ite,
      statePlt_ite, statePltgot_ite, stateDynbss_ite, stateDynbssRelro_ite,
      stateDynsym_ite, add_aux_fst_name, add_aux_fst_flags, add_aux_fst_is_imported,
      add_aux_fst_is_exported, add_aux_fst_value, add_aux_fst_has_copyrel,
      add_aux_fst_copyrel_readonly, add_aux_snd_plt, add_aux_snd_pltgot,
      add_aux_snd_dynbss, add_aux_snd_dynbss_relro, add_aux_snd_dynsym,
      copy_aliases_plt, copy_aliases_pltgot, copy_aliases_dynbss,
      copy_aliases_dynbss_relro, hcr, him, hro]
  · intro hro
    simp [scan_rels_sym, prodFst_ite, prodSnd_ite, symImported_ite, symExported_ite,
      symFlags_ite, symName_ite, symValue_ite, symCopyrelRo_ite, symHasCopyrel_ite,
      statePlt_ite, statePltgot_ite, stateDynbss_ite, stateDynbssRelro_ite,
      stateDynsym_ite, add_aux_fst_name, add_aux_fst_flags, add_aux_fst_is_imported,
      add_aux_fst_is_exported, add_aux_fst_value, add_aux_fst_has_copyrel,
      add_aux_fst_copyrel_readonly, add_aux_snd_plt, add_aux_snd_pltgot,
      add_aux_snd_dynbss, add_aux_snd_dynbss_relro, add_aux_snd_dynsym,
      copy_aliases_plt, copy_aliases_pltgot, copy_aliases_dynbss,
      copy_aliases_dynbss_relro, hcr, him, hro]
  · intro a ha
    simp only [scan_rels_sym, prodFst_ite, prodSnd_ite, symImported_ite, symExported_ite,
      symFlags_ite, symName_ite, symValue_ite, symCopyrelRo_ite, symHasCopyrel_ite,
      add_aux_fst_flags, add_aux_fst_value, add_aux_fst_copyrel_readonly,
      ite_self, hcr, ne_eq, not_false_eq_true, if_true, if_false] at ha ⊢
    exact copy_aliases_mem _ _ _ _ a ha

/-- Witness for C2: a copy-relocated symbol with one DSO alias, in a
writable segment. -/
theorem scan_rels_copyrel_witness :
    ((⟨"foo", 64, true, false, false, false, 7, -1⟩ : Symbol).flags &&& NEEDS_COPYREL ≠ 0) ∧
    ((⟨"foo", 64, true, false, false, false, 7, -1⟩ : Symbol).is_imported = true) ∧
    ((scan_rels_sym false false [⟨"bar", 0, false, false, false, false, 0, -1⟩]
        ⟨"foo", 64, true, false, false, false, 7, -1⟩
        ⟨0, [], [], [], [], [], 0, [], [], [], []⟩).1.is_imported = true ∧
     (scan_rels_sym false false [⟨"bar", 0, false, false, false, false, 0, -1⟩]
        ⟨"foo", 64, true, false, false, false, 7, -1⟩
        ⟨0, [], [], [], [], [], 0, [], [], [], []⟩).1.is_exported = true ∧
     (scan_rels_sym false false [⟨"bar", 0, false, false, false, false, 0, -1⟩]
        ⟨"foo", 64, true, false, false, false, 7, -1⟩
        ⟨0, [], [], [], [], [], 0, [], [], [], []⟩).1.copyrel_readonly = false ∧
     (false = true →
       (scan_rels_sym false false [⟨"bar", 0, false, false, false, false, 0, -1⟩]
          ⟨"foo", 64, true, false, false, false, 7, -1⟩
          ⟨0, [], [], [], [], [], 0, [], [], [], []⟩).2.2.dynbss_relro
         = (⟨0, [], [], [], [], [], 0, [], [], [], []⟩ : ScanState).dynbss_relro
           ++ [(⟨"foo", 64, true, false, false, false, 7, -1⟩ : Symbol).name] ∧
       (scan_rels_sym false false [⟨"bar", 0, false, false, false, false, 0, -1⟩]
          ⟨"foo", 64, true, false, false, false, 7, -1⟩
          ⟨0, [], [], [], [], [], 0, [], [], [], []⟩).2.2.dynbss
         = (⟨0, [], [], [], [], [], 0, [], [], [], []⟩ : ScanState).dynbss) ∧
     (false = false →
       (scan_rels_sym false false [⟨"bar", 0, false, false, false, false, 0, -1⟩]
          ⟨"foo", 64, true, false, false, false, 7, -1⟩
          ⟨0, [], [], [], [], [], 0, [], [], [], []⟩).2.2.dynbss
         = (⟨0, [], [], [], [], [], 0, [], [], [], []⟩ : ScanState).dynbss
           ++ [(⟨"foo", 64, true, false, false, false, 7, -1⟩ : Symbol).name] ∧
       (scan_rels_sym false false [⟨"bar", 0, false, false, false, false, 0, -1⟩]
          ⟨"foo", 64, true, false, false, false, 7, -1⟩
          ⟨0, [], [], [], [], [], 0, [], [], [], []⟩).2.2.dynbss_relro
         = (⟨0, [], [], [], [], [], 0, [], [], [], []⟩ : ScanState).dynbss_relro) ∧
     (∀ a ∈ (scan_rels_sym false false [⟨"bar", 0, false, false, false, false, 0, -1⟩]
          ⟨"foo", 64, true, false, false, false, 7, -1⟩
          ⟨0, [], [], [], [], [], 0, [], [], [], []⟩).2.1,
       a.is_imported = true ∧ a.is_exported = true ∧ a.has_copyrel = true ∧
       a.value = (⟨"foo", 64, true, false, false, false, 7, -1⟩ : Symbol).value ∧
       a.copyrel_readonly = false ∧
       a.name ∈ (scan_rels_sym false false [⟨"bar", 0, false, false, false, false, 0, -1⟩]
          ⟨"foo", 64, true, false, false, false, 7, -1⟩
          ⟨0, [], [], [], [], [], 0, [], [], [], []⟩).2.2.dynsym)) :=
  ⟨by decide, by decide,
   scan_rels_copyrel false false [⟨"bar", 0, false, false, false, false, 0, -1⟩]
     ⟨"foo", 64, true, false, false, false, 7, -1⟩
     ⟨0, [], [], [], [], [], 0, [], [], [], []⟩ (by decide) (by decide)⟩

/-! ## Claim theorems: C8 -/

theorem verdefLookup_none_iff (v : String) :
    ∀ (ds : List String) (n : Nat), verdefLookup ds n v = none ↔ v ∉ ds := by
  intro ds
  induction ds with
  | nil =>
    intro n
    simp [verdefLookup]
  | cons d ds ih =>
    intro n
    constructor
    · intro h
      simp only [verdefLookup] at h
      cases hrec : verdefLookup ds (n + 1) v with
      | some j =>
        rw [hrec] at h
        simp at h
      | none =>
        rw [hrec] at h
        have hd : d ≠ v := by
          intro hdv
          rw [if_pos hdv] at h
          simp at h
        have hmem : v ∉ ds := (ih (n + 1)).mp hrec
        simp only [List.mem_cons, not_or]
        exact ⟨fun he => hd he.symm, hmem⟩
    · intro h
      have hd : d ≠ v := fun hdv => h (by simp [hdv])
      have hmem : v ∉ ds := fun hv => h (List.mem_cons_of_mem _ hv)
      simp only [verdefLookup, (ih (n + 1)).mpr hmem, if_neg hd]

theorem verdefLookup_some (v : String) :
    ∀ (ds : List String) (n i : Nat), verdefLookup ds n v = some i →
      n ≤ i ∧ i - n < ds.length ∧ ds[i - n]? = some v := by
  intro ds
  induction ds with
  | nil =>
    intro n i h
    simp [verdefLookup] at h
  | cons d ds ih =>
    intro n i h
    simp only [verdefLookup] at h
    cases hrec : verdefLookup ds (n + 1) v with
    | some j =>
      rw [hrec] at h
      simp only [Option.some.injEq] at h
      subst h
      obtain ⟨h1, h2, h3⟩ := ih (n + 1) j hrec
      refine ⟨by omega, by simp; omega, ?_⟩
      have hj : j - n = (j - (n + 1)) + 1 := by omega
      rw [hj, List.getElem?_cons_succ]
      exact h3
    | none =>
      rw [hrec] at h
      by_cases hd : d = v
      · rw [if_pos hd] at h
        simp only [Option.some.injEq] at h
        subst h
        simp [hd]
      · rw [if_neg hd] at h
        simp at h

/-- Claim C8: `parse_symbol_version` runs only when producing a shared
object; a version suffix naming an unknown version reports an error and
leaves `ver_idx` unchanged; a known version name sets `ver_idx` to the
matching definition's index (offset past the reserved indices), with the
`HIDDEN` high bit set exactly when the stored suffix marks the symbol
non-default, i.e. does not carry the extra `@` of the `@@` form. -/
theorem parse_symbol_version_spec (defs : List String) (v : String) (cur : Nat)
    (hbound : defs.length + VER_NDX_LAST_RESERVED + 1 ≤ VERSYM_HIDDEN) :
    (∀ (sv : Option String) (cur2 : Nat),
        parse_symbol_version false defs sv cur2 = (cur2, false)) ∧
    ((if v.data.take 1 = ['@'] then String.mk (v.data.drop 1) else v) ∉ defs →
       parse_symbol_version true defs (some v) cur = (cur, true)) ∧
    ((if v.data.take 1 = ['@'] then String.mk (v.data.drop 1) else v) ∈ defs →
       ∃ i, defs[i]? = some (if v.data.take 1 = ['@'] then String.mk (v.data.drop 1) else v) ∧
         parse_symbol_version true defs (some v) cur
           = ((if v.data.take 1 = ['@'] then i + VER_NDX_LAST_RESERVED + 1
               else (i + VER_NDX_LAST_RESERVED + 1) ||| VERSYM_HIDDEN), false) ∧
         ((parse_symbol_version true defs (some v) cur).1.testBit 15 = true
            ↔ v.data.take 1 ≠ ['@'])) := by
  refine ⟨fun sv cur2 => rfl, ?_, ?_⟩
  · intro hnot
    by_cases hdef : v.data.take 1 = ['@']
    · rw [if_pos hdef] at hnot
      simp only [List.drop_one] at hnot
      have hlk := (verdefLookup_none_iff _ defs 0).mpr hnot
      simp [parse_symbol_version, hdef, hlk]
    · rw [if_neg hdef] at hnot
      have hlk := (verdefLookup_none_iff _ defs 0).mpr hnot
      simp [parse_symbol_version, hdef, hlk]
  · intro hmem
    by_cases hdef : v.data.take 1 = ['@']
    · rw [if_pos hdef] at hmem
      simp only [List.drop_one] at hmem
      cases hlk : verdefLookup defs 0 (String.mk v.data.tail) with
      | none => exact absurd hmem ((verdefLookup_none_iff _ defs 0).mp hlk)
      | some i =>
        obtain ⟨-, hlen, hget⟩ := verdefLookup_some _ defs 0 i hlk
        simp only [Nat.sub_zero] at hlen hget
        refine ⟨i, ?_, ?_, ?_⟩
        · rw [if_pos hdef]
          simp only [List.drop_one]
          exact hget
        · rw [if_pos hdef]
          simp [parse_symbol_version, hdef, hlk]
        · have hres : (parse_symbol_version true defs (some v) cur).1
              = i + VER_NDX_LAST_RESERVED + 1 := by
            simp [parse_symbol_version, hdef, hlk]
          rw [hres]
          have hlt : i + VER_NDX_LAST_RESERVED + 1 < 2 ^ 15 := by
            have hvh : VERSYM_HIDDEN = 2 ^ 15 := by decide
            omega
          simp [Nat.testBit_lt_two_pow hlt, hdef]
    · rw [if_neg hdef] at hmem
      cases hlk : verdefLookup defs 0 v with
      | none => exact absurd hmem ((verdefLookup_none_iff _ defs 0).mp hlk)
      | some i =>
        obtain ⟨-, hlen, hget⟩ := verdefLookup_some _ defs 0 i hlk
        simp only [Nat.sub_zero] at hlen hget
        refine ⟨i, ?_, ?_, ?_⟩
        · rw [if_neg hdef]
          exact hget
        · rw [if_neg hdef]
          simp [parse_symbol_version, hdef, hlk]
        · have hres : (parse_symbol_version true defs (some v) cur).1
              = (i + VER_NDX_LAST_RESERVED + 1) ||| VERSYM_HIDDEN := by
            simp [parse_symbol_version, hdef, hlk]
          rw [hres]
          have hone : VERSYM_HIDDEN.testBit 15 = true := by decide
          simp [Nat.testBit_or, hone, hdef]

/-- Witness for C8 at a concrete shared-object link. -/
theorem parse_symbol_version_spec_witness :
    (["V1", "V2"] : List String).length + VER_NDX_LAST_RESERVED + 1 ≤ VERSYM_HIDDEN ∧
    ((if ("V2" : String).data.take 1 = ['@'] then String.mk (("V2" : String).data.drop 1)
      else "V2") ∈ (["V1", "V2"] : List String)) ∧
    (∃ i, (["V1", "V2"] : List String)[i]?
        = some (if ("V2" : String).data.take 1 = ['@'] then
            String.mk (("V2" : String).data.drop 1) else "V2") ∧
      parse_symbol_version true ["V1", "V2"] (some "V2") 5
        = ((if ("V2" : String).data.take 1 = ['@'] then i + VER_NDX_LAST_RESERVED + 1
            else (i + VER_NDX_LAST_RESERVED + 1) ||| VERSYM_HIDDEN), false) ∧
      ((parse_symbol_version true ["V1", "V2"] (some "V2") 5).1.testBit 15 = true
         ↔ ("V2" : String).data.take 1 ≠ ['@'])) :=
  ⟨by decide, by decide,
   (parse_symbol_version_spec ["V1", "V2"] "V2" 5 (by decide)).2.2 (by decide)⟩

/-! ## Claim theorems: C3 -/

theorem align_with_skew_isLeast (val skew : Nat) {p : Nat} (hp : 0 < p) :
    IsLeast {n | val ≤ n ∧ n % p = skew % p} (align_with_skew val p skew) := by
  have hs : skew % p < p := Nat.mod_lt _ hp
  have h1 : val + p - skew % p ≤ alignTo (val + p - skew % p) p := le_alignTo _ hp
  obtain ⟨q, hq⟩ := alignTo_dvd (val + p - skew % p) hp
  have hq0 : 1 ≤ q := by
    rcases Nat.eq_zero_or_pos q with h | h
    · subst h
      rw [Nat.mul_zero] at hq
      omega
    · exact h
  have hApos : p ≤ alignTo (val + p - skew % p) p := by
    rw [hq]
    calc p = p * 1 := (Nat.mul_one p).symm
    _ ≤ p * q := Nat.mul_le_mul_left p hq0
  have hw : align_with_skew val p skew
      = alignTo (val + p - skew % p) p - p + skew % p := rfl
  have hmodw : (alignTo (val + p - skew % p) p - p + skew % p) % p = skew % p := by
    have h5 : alignTo (val + p - skew % p) p - p = (q - 1) * p := by
      have h6 : (q - 1) * p = q * p - p := by
        rw [Nat.sub_mul, Nat.one_mul]
      rw [h6, hq, Nat.mul_comm]
    rw [h5, Nat.add_comm, Nat.add_mul_mod_self_right, Nat.mod_eq_of_lt hs]
  refine ⟨⟨?_, ?_⟩, ?_⟩
  · rw [hw]
    omega
  · rw [hw]
    exact hmodw
  · rintro n ⟨hn1, hn2⟩
    have hdm := Nat.div_add_mod n p
    rw [hn2] at hdm
    have hdvd : p ∣ (n + p - skew % p) := by
      refine ⟨n / p + 1, ?_⟩
      rw [Nat.mul_add, Nat.mul_one]
      generalize p * (n / p) = T at hdm ⊢
      omega
    have hle : alignTo (val + p - skew % p) p ≤ n + p - skew % p :=
      alignTo_le hp (by omega) hdvd
    rw [hw]
    omega

theorem assignFileOffsets_spec {page : Nat} (hp : 0 < page) (cs : List OChunk) :
    ∀ cur : Nat, OffSpec page cur cs (assignFileOffsets page cur cs).1 := by
  induction cs with
  | nil =>
    intro cur
    simp [assignFileOffsets, OffSpec]
  | cons c cs ih =>
    intro cur
    cases hnb : c.nobits
    · simp only [assignFileOffsets, OffSpec, hnb]
      simp only [Bool.false_eq_true, if_false]
      exact ⟨align_with_skew cur page c.sh_addr,
        (assignFileOffsets page (align_with_skew cur page c.sh_addr + c.sh_size) cs).1,
        rfl, align_with_skew_isLeast cur c.sh_addr hp, ih _⟩
    · simp only [assignFileOffsets, OffSpec, hnb]
      simp only [if_true]
      exact ⟨(assignFileOffsets page cur cs).1, rfl, ih cur⟩

theorem assignFileOffsets_mod {page : Nat} (hp : 0 < page) (cs : List OChunk) :
    ∀ (cur : Nat) (c : OChunk), c ∈ (assignFileOffsets page cur cs).1 →
      c.nobits = false → c.sh_offset % page = c.sh_addr % page := by
  induction cs with
  | nil =>
    intro cur c hc hnb
    simp [assignFileOffsets] at hc
  | cons d ds ih =>
    intro cur c hc hnb
    cases hd : d.nobits
    · simp only [assignFileOffsets, hd, Bool.false_eq_true, if_false] at hc
      rcases List.mem_cons.mp hc with h | h
      · subst h
        have hmod := (align_with_skew_isLeast cur d.sh_addr hp (p := page)).1.2
        simpa using hmod
      · exact ih _ c h hnb
    · simp only [assignFileOffsets, hd, if_true] at hc
      rcases List.mem_cons.mp hc with h | h
      · subst h
        simp [hd] at hnb
      · exact ih _ c h hnb

/-- Counterexample to claim C3: the file-offset loop gives a `SHT_NOBITS`
alloc chunk the raw cursor as `sh_offset`, which is not congruent to its
`sh_addr` modulo the page size: a 10-byte progbits chunk followed by a
16-aligned `.bss` chunk yields `sh_offset = 10` but `sh_addr = 16`. -/
theorem set_osec_offsets_nobits_cex :
    ∃ c ∈ (set_osec_offsets (fun _ _ => false) 4096 0
        [⟨true, false, false, 1, 10, 0, 0⟩, ⟨true, false, true, 16, 8, 0, 0⟩]).1,
      c.shf_alloc = true ∧ c.sh_offset % 4096 ≠ c.sh_addr % 4096 := by
  decide

/-- Claim C3 (amended): after `set_osec_offsets`, the file-offset pass
satisfies the claim's cursor discipline — a NOBITS chunk's `sh_offset` is
the cursor, which does not advance, and any other chunk's `sh_offset` is
the least value at least the cursor and congruent to its `sh_addr` modulo
the page size — hence `sh_offset ≡ sh_addr (mod page_size)` holds for every
non-NOBITS chunk, but not in general for NOBITS chunks. -/
theorem set_osec_offsets_file_offsets (sep : OChunk → OChunk → Bool) (page image_base : Nat)
    (chunks : List OChunk) (hp : 0 < page) :
    OffSpec page 0 (fixTbssAddrs none (assignVaddrs sep page none image_base chunks))
      (set_osec_offsets sep page image_base chunks).1 ∧
    ∀ c ∈ (set_osec_offsets sep page image_base chunks).1,
      c.nobits = false → c.sh_offset % page = c.sh_addr % page := by
  constructor
  · exact assignFileOffsets_spec hp _ 0
  · exact fun c hc => assignFileOffsets_mod hp _ 0 c hc

/-- Witness for C3 at a concrete chunk list. -/
theorem set_osec_offsets_file_offsets_witness :
    (0 : Nat) < 4096 ∧
    (OffSpec 4096 0
      (fixTbssAddrs none (assignVaddrs (fun _ _ => false) 4096 none 0
        [⟨true, false, false, 1, 10, 0, 0⟩, ⟨true, false, true, 16, 8, 0, 0⟩]))
      (set_osec_offsets (fun _ _ => false) 4096 0
        [⟨true, false, false, 1, 10, 0, 0⟩, ⟨true, false, true, 16, 8, 0, 0⟩]).1 ∧
    ∀ c ∈ (set_osec_offsets (fun _ _ => false) 4096 0
        [⟨true, false, false, 1, 10, 0, 0⟩, ⟨true, false, true, 16, 8, 0, 0⟩]).1,
      c.nobits = false → c.sh_offset % 4096 = c.sh_addr % 4096) :=
  ⟨by decide,
   set_osec_offsets_file_offsets (fun _ _ => false) 4096 0
     [⟨true, false, false, 1, 10, 0, 0⟩, ⟨true, false, true, 16, 8, 0, 0⟩] (by decide)⟩

/-! ## Claim theorems: C4 -/

theorem assignVaddrs_tbss_run (sep : OChunk → OChunk → Bool) (page : Nat)
    (hsep : ∀ x y, sep x y = false) (ts : List OChunk) :
    ∀ (prev : Option OChunk) (addr : Nat) (tail : List OChunk),
      (∀ t ∈ ts, is_tbss t = true ∧ t.shf_alloc = true) →
      ∃ prev1 : Option OChunk,
        assignVaddrs sep page prev addr (ts ++ tail)
          = ts.map (fun t => {t with sh_addr := addr})
            ++ assignVaddrs sep page prev1 addr tail := by
  induction ts with
  | nil =>
    intro prev addr tail h
    exact ⟨prev, rfl⟩
  | cons t ts ih =>
    intro prev addr tail h
    obtain ⟨ht, ha⟩ := h t (List.mem_cons_self t ts)
    obtain ⟨prev1, hrec⟩ :=
      ih (some {t with sh_addr := addr}) addr tail
        (fun x hx => h x (List.mem_cons_of_mem _ hx))
    refine ⟨prev1, ?_⟩
    cases prev with
    | none =>
      simp only [List.cons_append, List.map_cons]
      simp [assignVaddrs, ha, ht] at hrec ⊢
      exact hrec
    | some p =>
      simp only [List.cons_append, List.map_cons]
      simp [assignVaddrs, ha, ht, hsep p t] at hrec ⊢
      exact hrec

theorem assignVaddrs_cons_nontbss (sep : OChunk → OChunk → Bool) (page : Nat)
    (hsep : ∀ x y, sep x y = false) (c : OChunk) (hca : c.shf_alloc = true)
    (hct : is_tbss c = false) (prev : Option OChunk) (addr : Nat) (tail : List OChunk) :
    assignVaddrs sep page prev addr (c :: tail)
      = {c with sh_addr := alignTo addr c.sh_addralign}
        :: assignVaddrs sep page (some {c with sh_addr := alignTo addr c.sh_addralign})
             (alignTo addr c.sh_addralign + c.sh_size) tail := by
  cases prev with
  | none => simp [assignVaddrs, hca, hct]
  | some p => simp [assignVaddrs, hca, hct, hsep p c]

theorem fixTbssAddrs_tbss_head (t : OChunk) (htt : is_tbss t = true) (cs : List OChunk) :
    fixTbssAddrs none (t :: cs)
      = {t with sh_addr := alignTo t.sh_addr t.sh_addralign}
        :: fixTbssAddrs (some (alignTo t.sh_addr t.sh_addralign + t.sh_size)) cs := by
  simp [fixTbssAddrs, htt]

theorem fixTbssAddrs_nontbss_head (c : OChunk) (hct : is_tbss c = false)
    (st : Option Nat) (cs : List OChunk) :
    fixTbssAddrs st (c :: cs) = c :: fixTbssAddrs none cs := by
  simp [fixTbssAddrs, hct]

theorem fixTbssAddrs_run (ts : List OChunk) :
    ∀ (base : Nat) (tail : List OChunk),
      (∀ t ∈ ts, is_tbss t = true) →
      (tail = [] ∨ ∃ d ds, tail = d :: ds ∧ is_tbss d = false) →
      ∃ out, fixTbssAddrs (some base) (ts ++ tail) = out ++ fixTbssAddrs none tail ∧
        RunLayout base ts out := by
  induction ts with
  | nil =>
    intro base tail h htail
    refine ⟨[], ?_, rfl⟩
    rcases htail with rfl | ⟨d, ds, rfl, hd⟩
    · rfl
    · rw [List.nil_append, List.nil_append, fixTbssAddrs_nontbss_head d hd,
        fixTbssAddrs_nontbss_head d hd]
  | cons t ts ih =>
    intro base tail h htail
    have ht := h t (List.mem_cons_self t ts)
    obtain ⟨out1, hout, hrl⟩ :=
      ih (alignTo base t.sh_addralign + t.sh_size) tail
        (fun x hx => h x (List.mem_cons_of_mem _ hx)) htail
    refine ⟨{t with sh_addr := alignTo base t.sh_addralign} :: out1, ?_, ?_⟩
    · simp only [List.cons_append]
      simp [fixTbssAddrs, ht]
      exact hout
    · exact ⟨out1, rfl, hrl⟩

theorem runLayout_map_set_addr (v : Nat) (ts : List OChunk) :
    ∀ (a : Nat) (out : List OChunk),
      RunLayout a (ts.map (fun t => {t with sh_addr := v})) out ↔ RunLayout a ts out := by
  induction ts with
  | nil =>
    intro a out
    exact Iff.rfl
  | cons t ts ih =>
    intro a out
    simp only [List.map_cons]
    constructor
    · rintro ⟨out1, rfl, hr⟩
      exact ⟨out1, rfl, (ih _ _).mp hr⟩
    · rintro ⟨out1, rfl, hr⟩
      exact ⟨out1, rfl, (ih _ _).mpr hr⟩

theorem runLayout_length (ts : List OChunk) :
    ∀ (a : Nat) (out : List OChunk), RunLayout a ts out → out.length = ts.length := by
  induction ts with
  | nil =>
    intro a out h
    rw [h]
  | cons t ts ih =>
    intro a out h
    obtain ⟨out1, rfl, hr⟩ := h
    simp [ih _ _ hr]

/-- Counterexample to claim C4: with a 10-byte chunk before a run made of
one 16-aligned TBSS chunk followed by a byte-aligned progbits chunk, the
TBSS fix-up realigns the TBSS chunk to address 16 while the following
non-TBSS chunk is laid out from the unchanged cursor at address 10, so the
two addresses differ. -/
theorem tbss_addr_cex :
    ((set_osec_offsets (fun _ _ => false) 4096 0
        [⟨true, false, false, 1, 10, 0, 0⟩, ⟨true, true, true, 16, 8, 0, 0⟩,
         ⟨true, false, false, 1, 4, 0, 0⟩]).1.map
      (fun c => (is_tbss c, c.sh_addr)))
      = [(false, 0), (true, 16), (false, 10)] ∧ (16 : Nat) ≠ 10 := by
  decide

/-- Claim C4 (amended): in `set_osec_offsets` (absent page separation),
every TBSS chunk is assigned a virtual address without advancing the
address cursor, so the first non-TBSS chunk following a run of TBSS chunks
is laid out from the cursor value at the start of the run — the value that
is also the pass-one address of the run's first chunk — aligned to its own
alignment; the fix-up pass then lays the TBSS run out consecutively
(aligned) starting from that same cursor value, so the following chunk's
address equals the first TBSS chunk's final address only when the
alignment adjustments coincide. -/
theorem tbss_run_layout (sep : OChunk → OChunk → Bool) (page : Nat)
    (prev : Option OChunk) (addr : Nat) (ts : List OChunk) (c : OChunk)
    (rest : List OChunk)
    (hsep : ∀ x y, sep x y = false)
    (hts : ∀ t ∈ ts, is_tbss t = true ∧ t.shf_alloc = true)
    (hne : ts ≠ []) (hct : is_tbss c = false) (hca : c.shf_alloc = true) :
    ∃ out1 rest1,
      fixTbssAddrs none (assignVaddrs sep page prev addr (ts ++ c :: rest))
        = out1 ++ {c with sh_addr := alignTo addr c.sh_addralign} :: rest1 ∧
      RunLayout addr ts out1 ∧ out1.length = ts.length := by
  obtain ⟨prev1, h1⟩ := assignVaddrs_tbss_run sep page hsep ts prev addr (c :: rest) hts
  rw [h1, assignVaddrs_cons_nontbss sep page hsep c hca hct prev1 addr rest]
  obtain ⟨t, ts', rfl⟩ : ∃ t ts', ts = t :: ts' := by
    cases ts with
    | nil => exact absurd rfl hne
    | cons a b => exact ⟨a, b, rfl⟩
  obtain ⟨htt, -⟩ := hts t (List.mem_cons_self t ts')
  have htt' : is_tbss {t with sh_addr := addr} = true := by
    simpa [is_tbss] using htt
  simp only [List.map_cons, List.cons_append]
  rw [fixTbssAddrs_tbss_head _ htt']
  obtain ⟨out, hout, hrl⟩ :=
    fixTbssAddrs_run (ts'.map (fun x => {x with sh_addr := addr}))
      (alignTo addr t.sh_addralign + t.sh_size)
      ({c with sh_addr := alignTo addr c.sh_addralign}
        :: assignVaddrs sep page
             (some {c with sh_addr := alignTo addr c.sh_addralign})
             (alignTo addr c.sh_addralign + c.sh_size) rest)
      (by
        intro x hx
        obtain ⟨y, hy, rfl⟩ := List.mem_map.mp hx
        have := (hts y (List.mem_cons_of_mem _ hy)).1
        simpa [is_tbss] using this)
      (Or.inr ⟨_, _, rfl, by simpa [is_tbss] using hct⟩)
  rw [hout, fixTbssAddrs_nontbss_head _ (by simpa [is_tbss] using hct)]
  refine ⟨{t with sh_addr := alignTo addr t.sh_addralign} :: out,
    assignVaddrs sep page
      (some {c with sh_addr := alignTo addr c.sh_addralign})
      (alignTo addr c.sh_addralign + c.sh_size) rest
      |> fixTbssAddrs none, ?_, ?_, ?_⟩
  · simp
  · exact ⟨out, rfl, (runLayout_map_set_addr addr ts' _ _).mp hrl⟩
  · simp [runLayout_length _ _ _ hrl]

/-- Witness for C4 at a concrete chunk list. -/
theorem tbss_run_layout_witness :
    (∀ t ∈ ([⟨true, true, true, 16, 8, 0, 0⟩] : List OChunk),
      is_tbss t = true ∧ t.shf_alloc = true) ∧
    (is_tbss (⟨true, false, false, 1, 4, 0, 0⟩ : OChunk) = false) ∧
    (∃ out1 rest1,
      fixTbssAddrs none (assignVaddrs (fun _ _ => false) 4096 none 10
          ([⟨true, true, true, 16, 8, 0, 0⟩]
            ++ (⟨true, false, false, 1, 4, 0, 0⟩ : OChunk) :: []))
        = out1 ++ {(⟨true, false, false, 1, 4, 0, 0⟩ : OChunk) with
            sh_addr := alignTo 10 (⟨true, false, false, 1, 4, 0, 0⟩ : OChunk).sh_addralign}
          :: rest1 ∧
      RunLayout 10 [⟨true, true, true, 16, 8, 0, 0⟩] out1 ∧
      out1.length = ([⟨true, true, true, 16, 8, 0, 0⟩] : List OChunk).length) :=
  ⟨by decide, by decide,
   tbss_run_layout (fun _ _ => false) 4096 none 10 [⟨true, true, true, 16, 8, 0, 0⟩]
     ⟨true, false, false, 1, 4, 0, 0⟩ [] (fun x y => rfl) (by decide) (by decide)
     (by decide) (by decide)⟩

/-! ## Claim theorems: C5 -/

theorem le_foldl_max_init (r : List ISec) :
    ∀ a : Nat, a ≤ r.foldl (fun x m => max x m.sh_addralign) a := by
  induction r with
  | nil => intro a; exact Nat.le_refl a
  | cons m r ih =>
    intro a
    exact Nat.le_trans (Nat.le_max_left a m.sh_addralign) (ih _)

theorem foldl_max_init (r : List ISec) :
    ∀ a b : Nat, r.foldl (fun x m => max x m.sh_addralign) (max a b)
      = max a (r.foldl (fun x m => max x m.sh_addralign) b) := by
  induction r with
  | nil => intro a b; rfl
  | cons m r ih =>
    intro a b
    simp only [List.foldl_cons]
    rw [Nat.max_assoc]
    exact ih a (max b m.sh_addralign)

theorem maxAlignOf_pos (ms : List ISec) : 0 < maxAlignOf ms :=
  Nat.lt_of_lt_of_le Nat.one_pos (le_foldl_max_init ms 1)

theorem le_maxAlignOf (ms : List ISec) : ∀ m ∈ ms, m.sh_addralign ≤ maxAlignOf ms := by
  have hgen : ∀ (xs : List ISec) (a : Nat), ∀ m ∈ xs,
      m.sh_addralign ≤ xs.foldl (fun x m => max x m.sh_addralign) a := by
    intro xs
    induction xs with
    | nil =>
      intro a m hm
      simp at hm
    | cons x xs ih =>
      intro a m hm
      rcases List.mem_cons.mp hm with rfl | hm
      · exact Nat.le_trans (Nat.le_max_right a m.sh_addralign) (le_foldl_max_init xs _)
      · exact ih _ m hm
  exact fun m hm => hgen ms 1 m hm

theorem pow2_one : Pow2 1 := ⟨0, rfl⟩

theorem pow2_max {a b : Nat} (ha : Pow2 a) (hb : Pow2 b) : Pow2 (max a b) := by
  rcases Nat.le_total a b with h | h
  · rw [Nat.max_eq_right h]
    exact hb
  · rw [Nat.max_eq_left h]
    exact ha

theorem pow2_dvd {a b : Nat} (ha : Pow2 a) (hb : Pow2 b) (h : a ≤ b) : a ∣ b := by
  obtain ⟨i, rfl⟩ := ha
  obtain ⟨j, rfl⟩ := hb
  exact pow_dvd_pow 2 ((Nat.pow_le_pow_iff_right (by omega)).mp h)

theorem foldl_max_pow2 (ms : List ISec) :
    ∀ a : Nat, Pow2 a → (∀ m ∈ ms, Pow2 m.sh_addralign) →
      Pow2 (ms.foldl (fun x m => max x m.sh_addralign) a) := by
  induction ms with
  | nil => intro a ha _; exact ha
  | cons m msx ih =>
    intro a ha h
    exact ih _ (pow2_max ha (h m (List.mem_cons_self m msx)))
      (fun x hx => h x (List.mem_cons_of_mem _ hx))

theorem maxAlignOf_pow2 (ms : List ISec) (h : ∀ m ∈ ms, Pow2 m.sh_addralign) :
    Pow2 (maxAlignOf ms) :=
  foldl_max_pow2 ms 1 pow2_one h

theorem scanSum_align (ms : List ISec) :
    ∀ s : Nat × Nat, (scanSum s ms).2 = ms.foldl (fun a m => max a m.sh_addralign) s.2 := by
  induction ms with
  | nil => intro s; rfl
  | cons m msx ih =>
    intro s
    simp only [scanSum, List.foldl_cons]
    exact ih _

theorem scanSum_align_ge (ms : List ISec) (s : Nat × Nat) : s.2 ≤ (scanSum s ms).2 := by
  rw [scanSum_align]
  exact le_foldl_max_init ms s.2

theorem scanSum_fst_shift (ms : List ISec) :
    ∀ (o b al : Nat), (∀ m ∈ ms, m.sh_addralign ∣ b) →
      (scanSum (o + b, al) ms).1 = (scanSum (o, al) ms).1 + b := by
  induction ms with
  | nil => intro o b al _; rfl
  | cons m msx ih =>
    intro o b al h
    have hd := h m (List.mem_cons_self m msx)
    simp only [scanSum]
    rw [alignTo_add_of_dvd o b hd]
    have e : alignTo o m.sh_addralign + b + m.sh_size
        = alignTo o m.sh_addralign + m.sh_size + b := by omega
    rw [e]
    exact ih _ b _ (fun x hx => h x (List.mem_cons_of_mem _ hx))

theorem scanSum_from_aligned (r : List ISec) (h : ∀ m ∈ r, Pow2 m.sh_addralign) (o : Nat) :
    (scanSum (alignTo o (maxAlignOf r), 1) r).1
      = alignTo o (maxAlignOf r) + (scanSum (0, 1) r).1 := by
  have hdvd : ∀ m ∈ r, m.sh_addralign ∣ alignTo o (maxAlignOf r) := by
    intro m hm
    exact (pow2_dvd (h m hm) (maxAlignOf_pow2 r h) (le_maxAlignOf r m hm)).trans
      (alignTo_dvd o (maxAlignOf_pos r))
  have hs := scanSum_fst_shift r 0 (alignTo o (maxAlignOf r)) 1 hdvd
  rw [Nat.zero_add] at hs
  rw [hs, Nat.add_comm]

theorem combine_scanSum (r : List ISec) (s : Nat × Nat) :
    combine s (scanSum (0, 1) r)
      = (alignTo s.1 (maxAlignOf r) + (scanSum (0, 1) r).1, max s.2 (maxAlignOf r)) := by
  unfold combine
  rw [scanSum_align]
  rfl

theorem parSum_cons (s : Nat × Nat) (r : List ISec) (rs : List (List ISec)) :
    parSum s (r :: rs) = parSum (combine s (scanSum (0, 1) r)) rs := rfl

theorem parScan_ranged (split : List (List ISec)) :
    ∀ s : Nat × Nat, (∀ r ∈ split, ∀ m ∈ r, Pow2 m.sh_addralign) →
      parOffsets s split = (rangedScan s.1 split).1 ∧
      (parSum s split).1 = (rangedScan s.1 split).2 := by
  induction split with
  | nil => intro s _; exact ⟨rfl, rfl⟩
  | cons r rs ih =>
    intro s h
    have hr := h r (List.mem_cons_self r rs)
    have hcursor : (combine s (scanSum (0, 1) r)).1
        = (scanSum (alignTo s.1 (maxAlignOf r), 1) r).1 := by
      rw [combine_scanSum, scanSum_from_aligned r hr s.1]
    obtain ⟨ih1, ih2⟩ :=
      ih (combine s (scanSum (0, 1) r)) (fun x hx => h x (List.mem_cons_of_mem _ hx))
    constructor
    · simp only [parOffsets, rangedScan]
      rw [ih1, hcursor]
    · rw [parSum_cons, ih2, hcursor]
      simp only [rangedScan]

theorem parSum_align (split : List (List ISec)) :
    ∀ s : Nat × Nat, (parSum s split).2
      = split.foldl (fun a r => max a (maxAlignOf r)) s.2 := by
  induction split with
  | nil => intro s; rfl
  | cons r rs ih =>
    intro s
    rw [parSum_cons, ih]
    simp only [List.foldl_cons]
    congr 1
    rw [combine_scanSum]

theorem parSum_align_flatten (split : List (List ISec)) :
    (parSum (0, 1) split).2 = (scanSum (0, 1) split.flatten).2 := by
  rw [parSum_align, scanSum_align, List.foldl_flatten]
  have hgen : ∀ (sp : List (List ISec)) (a : Nat), 1 ≤ a →
      sp.foldl (fun x r => max x (maxAlignOf r)) a
        = sp.foldl (fun x r => r.foldl (fun a m => max a m.sh_addralign) x) a := by
    intro sp
    induction sp with
    | nil => intro a _; rfl
    | cons r rs ih =>
      intro a ha
      simp only [List.foldl_cons]
      have e2 := foldl_max_init r a 1
      rw [Nat.max_eq_left ha] at e2
      have e : max a (maxAlignOf r) = r.foldl (fun x m => max x m.sh_addralign) a := by
        rw [e2]
        rfl
      rw [e]
      exact ih _ (Nat.le_trans ha (le_foldl_max_init r a))
  exact hgen split 1 (Nat.le_refl 1)

/-- Counterexample to claim C5: for the splitting
`[[1-byte], [1-byte, 2-aligned 2-byte], [1-byte]]` of a four-member list,
the combine-based parallel prefix scan aligns the second range's summary
start to that range's maximum alignment, producing member offsets
`[0, 1, 2, 6]` and size 7, while the sequential computation yields
`[0, 1, 2, 4]` and size 5. -/
theorem compute_section_sizes_split_cex :
    ([[⟨1, 1⟩], [⟨1, 1⟩, ⟨2, 2⟩], [⟨1, 1⟩]] : List (List ISec)).flatten
      = ([⟨1, 1⟩, ⟨1, 1⟩, ⟨2, 2⟩, ⟨1, 1⟩] : List ISec) ∧
    parOffsets (0, 1) ([[⟨1, 1⟩], [⟨1, 1⟩, ⟨2, 2⟩], [⟨1, 1⟩]] : List (List ISec))
      ≠ scanOffsets 0 ([⟨1, 1⟩, ⟨1, 1⟩, ⟨2, 2⟩, ⟨1, 1⟩] : List ISec) ∧
    (parSum (0, 1) ([[⟨1, 1⟩], [⟨1, 1⟩, ⟨2, 2⟩], [⟨1, 1⟩]] : List (List ISec))).1
      ≠ (scanSum (0, 1) ([⟨1, 1⟩, ⟨1, 1⟩, ⟨2, 2⟩, ⟨1, 1⟩] : List ISec)).1 := by
  decide

/-- Claim C5 (amended): with power-of-two alignments, `compute_section_sizes`
under a given splitting equals the range-aligned sequential computation
`rangedScan`, in which each range's members are laid out sequentially from
the combined prefix but the next range's prefix is the end of the range as
laid out from its start aligned up to the range's maximum alignment; the
resulting `sh_addralign` always equals the sequential one, and for the
trivial one-range splitting offsets, `sh_size` and `sh_addralign` all
equal the plain sequential computation.  For a non-trivial splitting the
offsets and `sh_size` can exceed the sequential values, so the claim as
stated holds only for the trivial splitting; for a fixed splitting the
result is a pure function of the input. -/
theorem compute_section_sizes_ranged (split : List (List ISec))
    (h : ∀ r ∈ split, ∀ m ∈ r, Pow2 m.sh_addralign) :
    (compute_section_sizes split).1 = (rangedScan 0 split).1 ∧
    (compute_section_sizes split).2.1 = (rangedScan 0 split).2 ∧
    (compute_section_sizes split).2.2 = (scanSum (0, 1) split.flatten).2 ∧
    (∀ ms : List ISec, compute_section_sizes [ms]
        = (scanOffsets 0 ms, (scanSum (0, 1) ms).1, (scanSum (0, 1) ms).2)) := by
  obtain ⟨h1, h2⟩ := parScan_ranged split (0, 1) h
  refine ⟨h1, h2, parSum_align_flatten split, ?_⟩
  intro ms
  have hone : 1 ≤ (scanSum (0, 1) ms).2 := scanSum_align_ge ms (0, 1)
  unfold compute_section_sizes
  simp only [parOffsets, parSum, List.foldl_cons, List.foldl_nil, List.append_nil]
  rw [combine_scanSum]
  simp only [alignTo_zero_left, Nat.zero_add]
  have hal : (scanSum (0, 1) ms).2 = maxAlignOf ms := by
    rw [scanSum_align]
    rfl
  rw [Nat.max_eq_right (maxAlignOf_pos ms), ← hal]

/-- Witness for C5 at a concrete splitting with power-of-two alignments. -/
theorem compute_section_sizes_ranged_witness :
    (∀ r ∈ ([[⟨2, 4⟩], [⟨4, 2⟩, ⟨1, 1⟩]] : List (List ISec)), ∀ m ∈ r, Pow2 m.sh_addralign) ∧
    ((compute_section_sizes ([[⟨2, 4⟩], [⟨4, 2⟩, ⟨1, 1⟩]] : List (List ISec))).1
        = (rangedScan 0 ([[⟨2, 4⟩], [⟨4, 2⟩, ⟨1, 1⟩]] : List (List ISec))).1 ∧
      (compute_section_sizes ([[⟨2, 4⟩], [⟨4, 2⟩, ⟨1, 1⟩]] : List (List ISec))).2.1
        = (rangedScan 0 ([[⟨2, 4⟩], [⟨4, 2⟩, ⟨1, 1⟩]] : List (List ISec))).2 ∧
      (compute_section_sizes ([[⟨2, 4⟩], [⟨4, 2⟩, ⟨1, 1⟩]] : List (List ISec))).2.2
        = (scanSum (0, 1) ([[⟨2, 4⟩], [⟨4, 2⟩, ⟨1, 1⟩]] : List (List ISec)).flatten).2 ∧
      (∀ ms : List ISec, compute_section_sizes [ms]
          = (scanOffsets 0 ms, (scanSum (0, 1) ms).1, (scanSum (0, 1) ms).2))) :=
  ⟨by
    intro r hr m hm
    simp only [List.mem_cons, List.not_mem_nil, or_false] at hr
    rcases hr with rfl | rfl <;> simp only [List.mem_cons, List.not_mem_nil, or_false] at hm
    · rw [hm]
      exact ⟨1, rfl⟩
    · rcases hm with rfl | rfl
      · exact ⟨2, rfl⟩
      · exact ⟨0, rfl⟩,
   compute_section_sizes_ranged [[⟨2, 4⟩], [⟨4, 2⟩, ⟨1, 1⟩]] (by
    intro r hr m hm
    simp only [List.mem_cons, List.not_mem_nil, or_false] at hr
    rcases hr with rfl | rfl <;> simp only [List.mem_cons, List.not_mem_nil, or_false] at hm
    · rw [hm]
      exact ⟨1, rfl⟩
    · rcases hm with rfl | rfl
      · exact ⟨2, rfl⟩
      · exact ⟨0, rfl⟩)⟩

/-- Witness for C7 at a concrete output section. -/
theorem sort_init_fini_sorted_witness :
    List.Sorted (fun a b => get_priority a ≤ get_priority b)
      (sort_init_fini ".init_array" [".init_array.300", ".init_array.100"]) ∧
    (sort_init_fini ".init_array" [".init_array.300", ".init_array.100"]).Perm
      [".init_array.300", ".init_array.100"] ∧
    sort_init_fini ".init_array" [".init_array.300", ".init_array.100", ".init_array"]
      = [".init_array.100", ".init_array.300", ".init_array"] :=
  sort_init_fini_sorted ".init_array" [".init_array.300", ".init_array.100"] (Or.inl rfl)

end Mold
